import Mathlib

/-!
Shallow embedding of the project-session lifecycle core of the Vite preview
server (`src/server.js`).

Modelling conventions:
* An absolute file path is a list of segments (`Segs`), root-relative.
* Node's `path.join(a, b, ...)` concatenates its arguments with `/` and then
  normalizes the result (drops `.` segments, resolves `..` segments, and —
  because every base path in the server is absolute — clamps `..` at the
  root).  `normalizeAbs` implements exactly that normalization on segment
  lists and `splitPath` the splitting of a path string into its nonempty
  segments.
* The on-disk filesystem has two parts: the files, an association list
  from absolute path to content (`FS`), and the directories, recorded as
  the list of paths passed to a successful `fs.mkdir(_, {recursive:true})`
  (`ServerState.dirs`; a directory exists iff it is the root or a prefix
  of a recorded path, see `dirExists`).  `fs.mkdir(d, {recursive:true})`
  fails iff an existing file lies at or above `d`; `fs.writeFile(p, c)`
  fails iff `c` is not a string (TypeError), `p` is an existing directory
  (EISDIR), or `p`'s parent directory does not exist (ENOENT) — the
  update handler, unlike the load loop, never calls `fs.mkdir`, so the
  ENOENT path is reachable there.
* The `projects` JS `Map` is an insertion-ordered association list;
  `Map.set` (`setProj`) replaces in place when the key is present and
  appends otherwise, `Map.get` (`getProj`) returns the first (unique)
  binding.
* A Vite dev-server instance (`await createViteServer(...)`) is an opaque
  handle, identified by the `Nat` drawn from `nextHandle` at creation time;
  `vite.close()` is recorded by appending the handle to the `closed` ledger.
  Its module graph is a list of absolute module ids; a freshly created
  server has compiled nothing, so its graph starts empty and is treated as
  an arbitrary value in theorems about later states.
* JSON request fields are modelled as: strings for `projectId`/`path`
  (JS falsiness of a string is emptiness), and `Option ContentVal` for
  `update-file`'s `content`, where `none` is an absent key
  (`content === undefined`), `some ContentVal.Null` is JSON `null`, and
  `some (ContentVal.Str s)` a JSON string.  `fs.writeFile` accepts a string
  and throws on `null`, which the handler's `catch` maps to HTTP 500.
* Timestamps (`Date.now()`) are integers supplied to each operation.
-/

namespace PreviewServer

/-- An absolute path, as the list of its segments from the root. -/
abbrev Segs := List String

/-- Split a path string into its nonempty `/`-separated segments
(`s.split('/')` with empty segments dropped, as `path.join`'s
normalization does). -/
def splitSegsAux (cs : List Char) (cur : List Char) : List String :=
  match cs with
  | [] => if cur.isEmpty then [] else [String.mk cur.reverse]
  | c :: rest =>
    if c = '/' then
      if cur.isEmpty then splitSegsAux rest []
      else String.mk cur.reverse :: splitSegsAux rest []
    else splitSegsAux rest (c :: cur)

/-- Segments of a path string. -/
def splitPath (s : String) : List String :=
  splitSegsAux s.data []

/-- One step of `path.posix.normalize` on an absolute path, processing one
segment against the stack of segments already emitted (held reversed):
`.` is dropped, `..` pops the stack (and is dropped at the root, as for an
absolute path), any other segment is pushed. -/
def normStep (acc : List String) (seg : String) : List String :=
  if seg = "." then acc
  else if seg = ".." then acc.tail
  else seg :: acc

/-- `path.posix.normalize` of an absolute path given by its raw segment
list. -/
def normalizeAbs (segs : List String) : Segs :=
  (segs.foldl normStep []).reverse

/-- `path.join(base, p)` for an absolute, already-normalized `base`:
concatenate and normalize.  This is the path computation the server applies
to every caller-supplied file path. -/
def resolveUnder (base : Segs) (p : String) : Segs :=
  normalizeAbs (base ++ splitPath p)

/-- `join(__dirname, 'projects', projectId)` — the workspace directory of a
project id, under the server directory `dirname`. -/
def workspaceSegs (dirname : Segs) (projectId : String) : Segs :=
  normalizeAbs (dirname ++ ["projects"] ++ splitPath projectId)

/-- The flat filesystem: an association list from absolute path to file
content, at most one entry per path. -/
abbrev FS := List (Segs × String)

/-- `fs.writeFile(p, c)`: create or overwrite the file at `p`. -/
def fsWrite (fs : FS) (p : Segs) (c : String) : FS :=
  (p, c) :: fs.filter (fun e => ¬ e.1 = p)

/-- Content of the file at `p`, if present. -/
def fsRead (fs : FS) (p : Segs) : Option String :=
  (fs.find? (fun e => e.1 = p)).map (fun e => e.2)

/-- Number of files lying inside the directory `ws`. -/
def countInWorkspace (ws : Segs) (fs : FS) : Nat :=
  (fs.filter (fun e => ws.isPrefixOf e.1)).length

/-- Whether the directory `d` exists, given the paths `dirs` of the
directories created so far (each `fs.mkdir(x, {recursive:true})` also
creates every ancestor of `x`): `d` exists iff it is the root or an
ancestor-or-equal of some created directory. -/
def dirExists (dirs : List Segs) (d : Segs) : Bool :=
  d.isEmpty || dirs.any (fun x => d.isPrefixOf x)

/-- One `{path, content}` entry of a load-project manifest (well-formed:
string content). -/
structure FileEntry where
  path : String
  content : String
deriving DecidableEq, Repr

/-- The body of `POST /load-project`; `files` is `none` when the field is
missing or not an array. -/
structure LoadReq where
  projectId : String
  files : Option (List FileEntry)
deriving DecidableEq, Repr

/-- A JSON value admissible for `update-file`'s `content` field, as far as
the claims need: `null` or a string. -/
inductive ContentVal where
  | Null : ContentVal
  | Str : String → ContentVal
deriving DecidableEq, Repr

/-- The body of `POST /update-file`; `content = none` models an absent key
(`content === undefined`). -/
structure UpdateReq where
  projectId : String
  path : String
  content : Option ContentVal
deriving DecidableEq, Repr

/-- HTTP outcome of a handler, by status code. -/
inductive Resp where
  | ok : Resp
  | badRequest : Resp
  | notFound : Resp
  | serverError : Resp
deriving DecidableEq, Repr

/-- A registered project session: the value stored in the `projects` map. -/
structure Session where
  viteHandle : Nat
  path : Segs
  moduleGraph : List Segs
  files : List FileEntry
  createdAt : Int
deriving DecidableEq, Repr

/-- `projects.get(id)`. -/
def getProj (m : List (String × Session)) (id : String) : Option Session :=
  (m.find? (fun e => e.1 = id)).map (fun e => e.2)

/-- `projects.set(id, s)`: replace in place if the key is present (JS `Map`
keeps the original insertion position), append otherwise. -/
def setProj (m : List (String × Session)) (id : String) (s : Session) :
    List (String × Session) :=
  if m.any (fun e => e.1 = id) then
    m.map (fun e => if e.1 = id then (id, s) else e)
  else m ++ [(id, s)]

/-- The whole server state: server directory, the `projects` map, the disk,
the supply of fresh engine handles, and the ledger of `vite.close()` calls
(each close appends the closed handle). -/
structure ServerState where
  dirname : Segs
  projects : List (String × Session)
  fs : FS
  dirs : List Segs
  nextHandle : Nat
  closed : List Nat
deriving DecidableEq, Repr

/-- State at process start: empty registry, empty disk (no files, no
created directories), no closes. -/
def initState (dirname : Segs) : ServerState :=
  { dirname := dirname, projects := [], fs := [], dirs := [],
    nextHandle := 0, closed := [] }

/-- Observable side effects of a request, in the order they are issued. -/
inductive Event where
  | write : Segs → String → Event
  | invalidate : Segs → Event
  | wsSend : Segs → Int → Event
  | close : Nat → Event
  | rmWorkspace : Segs → Event
deriving DecidableEq, Repr

/-- One iteration of the materialization loop of `POST /load-project`, for
one entry: `fs.mkdir(dirname(filePath), {recursive:true})` (fails iff an
existing file lies at or above the target directory) then
`fs.writeFile(filePath, content)` (fails iff `filePath` is an existing
directory).  The loop throws on the first failure, so a `false` flag
short-circuits the remaining entries; state mutated so far persists, as on
disk.  (On a failing `mkdir` the partially created ancestors are not
recorded; no claim depends on them.) -/
def matStep (ws : Segs) (acc : List Segs × FS × Bool) (f : FileEntry) :
    List Segs × FS × Bool :=
  match acc with
  | (dirs, fs, false) => (dirs, fs, false)
  | (dirs, fs, true) =>
    let filePath := resolveUnder ws f.path
    let fileDir := filePath.dropLast
    if fs.any (fun e => e.1.isPrefixOf fileDir) then
      (dirs, fs, false)
    else if dirExists (fileDir :: dirs) filePath then
      (fileDir :: dirs, fs, false)
    else
      (fileDir :: dirs, fsWrite fs filePath f.content, true)

/-- `POST /load-project` at time `now`: validate, `fs.mkdir(projectPath,
{recursive:true})`, materialize the files entry by entry (`matStep`), and
on full success create a fresh engine handle rooted at the workspace and
register the session — overwriting any existing session for the id without
closing its handle, exactly as `projects.set` does in the source.  Any
mkdir/write failure is caught and answered 500: the engine is never
created and the registry untouched, but files and directories materialized
before the failure remain on disk. -/
def loadProject (now : Int) (st : ServerState) (req : LoadReq) :
    ServerState × Resp :=
  if req.projectId = "" then (st, Resp.badRequest)
  else
    match req.files with
    | none => (st, Resp.badRequest)
    | some files =>
      let ws := workspaceSegs st.dirname req.projectId
      if st.fs.any (fun e => e.1.isPrefixOf ws) then (st, Resp.serverError)
      else
        match files.foldl (matStep ws) (ws :: st.dirs, st.fs, true) with
        | (dirs2, fs2, true) =>
          let sess : Session :=
            { viteHandle := st.nextHandle, path := ws, moduleGraph := [],
              files := files, createdAt := now }
          ({ st with
              dirs := dirs2,
              fs := fs2,
              projects := setProj st.projects req.projectId sess,
              nextHandle := st.nextHandle + 1 },
           Resp.ok)
        | (dirs2, fs2, false) =>
          ({ st with dirs := dirs2, fs := fs2 }, Resp.serverError)

/-- `POST /update-file` at time `now`: validate (400 when `projectId` or
`path` is falsy or `content` is `undefined`), look the project up (404 when
absent), then `fs.writeFile(join(project.path, path), content)` with no
`fs.mkdir` before it: the write throws — caught as 500, nothing written,
no invalidation — when `content` is not a string (TypeError), when the
resolved path is an existing directory (EISDIR), or when its parent
directory does not exist (ENOENT).  After a successful write, only if the
module graph has a node for the path, invalidate it and push a live-update
notification. -/
def updateFile (now : Int) (st : ServerState) (req : UpdateReq) :
    ServerState × Resp × List Event :=
  if req.projectId = "" ∨ req.path = "" ∨ req.content = none then
    (st, Resp.badRequest, [])
  else
    match getProj st.projects req.projectId with
    | none => (st, Resp.notFound, [])
    | some proj =>
      let filePath := resolveUnder proj.path req.path
      match req.content with
      | some (ContentVal.Str s) =>
        if dirExists st.dirs filePath then (st, Resp.serverError, [])
        else if ¬ dirExists st.dirs filePath.dropLast then
          (st, Resp.serverError, [])
        else if filePath ∈ proj.moduleGraph then
          ({ st with fs := fsWrite st.fs filePath s }, Resp.ok,
           [Event.write filePath s, Event.invalidate filePath,
            Event.wsSend filePath now])
        else
          ({ st with fs := fsWrite st.fs filePath s }, Resp.ok,
           [Event.write filePath s])
      | _ => (st, Resp.serverError, [])

/-- Retention threshold: `30 * 60 * 1000` ms. -/
def maxAge : Int := 30 * 60 * 1000

/-- Effects of evicting the listed sessions, in iteration order: one
`vite.close()` then one fire-and-forget `fs.rm` request per session. -/
def evictionEvents (l : List (String × Session)) : List Event :=
  l.foldr
    (fun e acc => Event.close e.2.viteHandle :: Event.rmWorkspace e.2.path :: acc)
    []

/-- One tick of the cleanup `setInterval`: every registered session with
`now - createdAt > MAX_AGE` is closed, removed from the registry, and its
workspace deletion is requested best-effort (one `fs.rm` per evicted
session, failures only logged, the tick never fails); every other session
is untouched.  The on-disk `fs` is unchanged by the tick itself — deletion
is an asynchronous request, recorded as an `rmWorkspace` event. -/
def reaperTick (now : Int) (st : ServerState) : ServerState × List Event :=
  let evict := st.projects.filter (fun e => maxAge < now - e.2.createdAt)
  let keep := st.projects.filter (fun e => ¬ maxAge < now - e.2.createdAt)
  ({ st with
      projects := keep,
      closed := st.closed ++ evict.map (fun e => e.2.viteHandle) },
   evictionEvents evict)

/-- A server operation, for reasoning about whole execution traces. -/
inductive Op where
  | load : Int → LoadReq → Op
  | update : Int → UpdateReq → Op
  | tick : Int → Op

/-- State transition of one operation. -/
def stepOp (st : ServerState) (op : Op) : ServerState :=
  match op with
  | Op.load now req => (loadProject now st req).1
  | Op.update now req => (updateFile now st req).1
  | Op.tick now => (reaperTick now st).1

/-- Apply a sequence of `update-file` requests (each with its own clock
reading). -/
def applyUpdates (st : ServerState) (us : List (Int × UpdateReq)) : ServerState :=
  us.foldl (fun s u => (updateFile u.1 s u.2).1) st

/-- Engine handles currently registered. -/
def handlesOf (m : List (String × Session)) : List Nat :=
  m.map (fun e => e.2.viteHandle)

/-- The leaked-handle invariant: handle `h` is not registered, is stale
(below the fresh-handle supply), and has never been closed. -/
def leakInv (h : Nat) (st : ServerState) : Prop :=
  h ∉ handlesOf st.projects ∧ h < st.nextHandle ∧ st.closed.count h = 0

/-- Concrete fixture: the state after loading project `"p"` twice in a row
(the second load silently overwrites the first session). -/
def loadTwiceState : ServerState :=
  (loadProject 200
    (loadProject 100 (initState ["app"])
      { projectId := "p", files := some [{ path := "index.html", content := "hi" }] }).1
    { projectId := "p", files := some [{ path := "index.html", content := "hi2" }] }).1

/-- Concrete fixture: workspace of project `"demo"` under server dir
`["app"]`. -/
def wsDemo : Segs := workspaceSegs ["app"] "demo"

/-- Concrete fixture: a session for `"demo"` whose engine has compiled the
module `/index.js` (so its module graph has a node for it). -/
def sessDemo : Session :=
  { viteHandle := 0, path := wsDemo,
    moduleGraph := [resolveUnder wsDemo "/index.js"],
    files := [{ path := "/index.js", content := "old" }],
    createdAt := 1000 }

/-- Concrete fixture: a freshly created session for `"fresh"`. -/
def sessFresh : Session :=
  { viteHandle := 1, path := workspaceSegs ["app"] "fresh",
    moduleGraph := [], files := [], createdAt := 2000000 }

/-- Concrete fixture: a server state holding one stale and one fresh
session; only the `"demo"` workspace directory exists on disk. -/
def stDemo : ServerState :=
  { dirname := ["app"],
    projects := [("demo", sessDemo), ("fresh", sessFresh)],
    fs := [], dirs := [wsDemo], nextHandle := 2, closed := [] }

/-! ## Basic lemmas about the embedded operations -/

theorem fsRead_fsWrite_self (fs : FS) (p : Segs) (c : String) :
    fsRead (fsWrite fs p c) p = some c := by
  simp [fsRead, fsWrite]

theorem updateFile_projects (now : Int) (st : ServerState) (req : UpdateReq) :
    (updateFile now st req).1.projects = st.projects := by
  unfold updateFile
  split
  · rfl
  · split
    · rfl
    · dsimp only
      repeat' split
      all_goals rfl

theorem updateFile_closed (now : Int) (st : ServerState) (req : UpdateReq) :
    (updateFile now st req).1.closed = st.closed := by
  unfold updateFile
  split
  · rfl
  · split
    · rfl
    · dsimp only
      repeat' split
      all_goals rfl

theorem updateFile_nextHandle (now : Int) (st : ServerState) (req : UpdateReq) :
    (updateFile now st req).1.nextHandle = st.nextHandle := by
  unfold updateFile
  split
  · rfl
  · split
    · rfl
    · dsimp only
      repeat' split
      all_goals rfl

theorem applyUpdates_projects (us : List (Int × UpdateReq)) :
    ∀ st : ServerState, (applyUpdates st us).projects = st.projects := by
  induction us with
  | nil => intro st; rfl
  | cons u t ih =>
    intro st
    simp only [applyUpdates, List.foldl_cons] at ih ⊢
    rw [ih, updateFile_projects]

theorem getProj_cons (e : String × Session) (t : List (String × Session))
    (id : String) :
    getProj (e :: t) id = if e.1 = id then some e.2 else getProj t id := by
  by_cases he : e.1 = id
  · simp [getProj, List.find?_cons_of_pos, he]
  · simp [getProj, List.find?_cons_of_neg, he]

theorem setProj_cons_of_ne (e : String × Session) (t : List (String × Session))
    (id : String) (s : Session) (he : ¬ e.1 = id) :
    setProj (e :: t) id s = e :: setProj t id s := by
  unfold setProj
  by_cases hany : t.any (fun x => x.1 = id)
  · simp [List.any_cons, he, hany]
  · simp [List.any_cons, he, hany]

theorem getProj_setProj_self (m : List (String × Session)) (id : String)
    (s : Session) : getProj (setProj m id s) id = some s := by
  induction m with
  | nil => simp [setProj, getProj]
  | cons e t ih =>
    by_cases he : e.1 = id
    · have hany : (e :: t).any (fun x => x.1 = id) = true := by
        simp [List.any_cons, he]
      simp only [setProj, hany, if_true, List.map_cons, he, if_pos]
      rw [getProj_cons]
      simp
    · rw [setProj_cons_of_ne e t id s he, getProj_cons, if_neg he]
      exact ih

theorem mem_handles_setProj {h : Nat} {m : List (String × Session)}
    {id : String} {s : Session} (hm : h ∈ handlesOf (setProj m id s)) :
    h ∈ handlesOf m ∨ h = s.viteHandle := by
  unfold setProj at hm
  split at hm
  · unfold handlesOf at hm ⊢
    rw [List.map_map] at hm
    obtain ⟨e, he, heq⟩ := List.mem_map.mp hm
    by_cases hke : e.1 = id
    · right
      simp [Function.comp, hke] at heq
      exact heq.symm
    · left
      refine List.mem_map.mpr ⟨e, he, ?_⟩
      simpa [Function.comp, hke] using heq
  · unfold handlesOf at hm ⊢
    rw [List.map_append] at hm
    rcases List.mem_append.mp hm with hc | hc
    · exact Or.inl hc
    · right
      simpa using hc

theorem mem_handles_filter {h : Nat} {m : List (String × Session)}
    {p : String × Session → Bool} (hm : h ∈ handlesOf (m.filter p)) :
    h ∈ handlesOf m := by
  unfold handlesOf at hm ⊢
  obtain ⟨e, he, heq⟩ := List.mem_map.mp hm
  exact List.mem_map.mpr ⟨e, List.mem_of_mem_filter he, heq⟩

theorem leakInv_stepOp (h : Nat) (st : ServerState) (op : Op)
    (hi : leakInv h st) : leakInv h (stepOp st op) := by
  obtain ⟨h1, h2, h3⟩ := hi
  cases op with
  | load now req =>
    show leakInv h (loadProject now st req).1
    by_cases hid : req.projectId = ""
    · have heq : (loadProject now st req).1 = st := by
        simp [loadProject, hid]
      rw [heq]
      exact ⟨h1, h2, h3⟩
    · cases hf : req.files with
      | none =>
        have heq : (loadProject now st req).1 = st := by
          simp [loadProject, hid, hf]
        rw [heq]
        exact ⟨h1, h2, h3⟩
      | some files =>
        by_cases hmk : st.fs.any (fun e =>
            e.1.isPrefixOf (workspaceSegs st.dirname req.projectId)) = true
        · have heq : (loadProject now st req).1 = st := by
            simp only [loadProject, if_neg hid, hf, if_pos hmk]
          rw [heq]
          exact ⟨h1, h2, h3⟩
        · rcases hres : files.foldl
              (matStep (workspaceSegs st.dirname req.projectId))
              (workspaceSegs st.dirname req.projectId :: st.dirs, st.fs, true)
            with ⟨dirs2, fs2, ok2⟩
          cases ok2 with
          | false =>
            have heq : (loadProject now st req).1
                = { st with dirs := dirs2, fs := fs2 } := by
              simp only [loadProject, if_neg hid, hf, if_neg hmk, hres]
            rw [heq]
            exact ⟨h1, h2, h3⟩
          | true =>
            have heq : (loadProject now st req).1
                = { st with
                    dirs := dirs2,
                    fs := fs2,
                    projects := setProj st.projects req.projectId
                      { viteHandle := st.nextHandle,
                        path := workspaceSegs st.dirname req.projectId,
                        moduleGraph := [], files := files, createdAt := now },
                    nextHandle := st.nextHandle + 1 } := by
              simp only [loadProject, if_neg hid, hf, if_neg hmk, hres]
            rw [heq]
            refine ⟨?_, Nat.lt_succ_of_lt h2, h3⟩
            intro hmem
            rcases mem_handles_setProj hmem with hc | hc
            · exact h1 hc
            · exact absurd hc (Nat.ne_of_lt h2)
  | update now req =>
    show leakInv h (updateFile now st req).1
    refine ⟨?_, ?_, ?_⟩
    · rw [updateFile_projects]; exact h1
    · rw [updateFile_nextHandle]; exact h2
    · rw [updateFile_closed]; exact h3
  | tick now =>
    show leakInv h (reaperTick now st).1
    unfold reaperTick
    refine ⟨?_, h2, ?_⟩
    · intro hmem
      exact h1 (mem_handles_filter hmem)
    · rw [List.count_append, h3, Nat.zero_add]
      refine List.count_eq_zero.mpr ?_
      intro hmem
      exact h1 (mem_handles_filter hmem)

theorem leakInv_trace (h : Nat) (st : ServerState) (hi : leakInv h st) :
    ∀ ops : List Op, leakInv h (ops.foldl stepOp st) := by
  intro ops
  induction ops generalizing st with
  | nil => exact hi
  | cons o t ih => exact ih _ (leakInv_stepOp h st o hi)

/-! ## Claims -/

/-- C1: the claim says the load-project handler canonicalizes or rejects
paths that escape the workspace root.  The code does neither: it writes to
`join(projectPath, file.path)` unconditionally, so the entry path `../evil`
of a load of project `P` is written to `projects/evil`, the sibling of the
workspace — the load still reports success and the workspace itself ends up
empty. -/
theorem load_traversal_escapes_workspace :
    workspaceSegs ["app"] "P" = ["app", "projects", "P"]
    ∧ (loadProject 0 (initState ["app"])
        { projectId := "P",
          files := some [{ path := "../evil", content := "x" }] }).2 = Resp.ok
    ∧ fsRead (loadProject 0 (initState ["app"])
        { projectId := "P",
          files := some [{ path := "../evil", content := "x" }] }).1.fs
        ["app", "projects", "evil"] = some "x"
    ∧ (workspaceSegs ["app"] "P").isPrefixOf ["app", "projects", "evil"] = false
    ∧ countInWorkspace (workspaceSegs ["app"] "P")
        (loadProject 0 (initState ["app"])
          { projectId := "P",
            files := some [{ path := "../evil", content := "x" }] }).1.fs = 0 := by
  decide

/-- C2 counterexample: the distinct caller-supplied ids `"a"` and `"a/b"`
violate workspace disjointness — the workspace of `"a"` is a prefix of
(contains) the workspace of `"a/b"`; and the distinct ids `"x"` and
`"x/."` even share the same workspace path. -/
theorem nested_ids_overlap_workspaces :
    (("a" : String) = "a/b") = False
    ∧ (workspaceSegs ["app"] "a").isPrefixOf (workspaceSegs ["app"] "a/b") = true
    ∧ (("x" : String) = "x/.") = False
    ∧ workspaceSegs ["app"] "x" = workspaceSegs ["app"] "x/." := by
  decide

/-- C3: the claim (and the spec) require the prior session's engine handle
to be closed exactly once when its id is re-loaded.  The code's
`projects.set` overwrite drops the prior session without closing it: after
loading `"p"` twice, only the second handle (1) is registered, nothing has
been closed, and no subsequent sequence of server operations (loads,
updates, reaper ticks) can ever close the orphaned first handle (0) — it is
closed zero times over the session's lifetime, not exactly once. -/
theorem double_load_leaks_prior_engine_handle :
    handlesOf loadTwiceState.projects = [1]
    ∧ loadTwiceState.closed = []
    ∧ ∀ ops : List Op, ((ops.foldl stepOp loadTwiceState).closed).count 0 = 0 := by
  refine ⟨by decide, by decide, fun ops => ?_⟩
  have hinv : leakInv 0 loadTwiceState := ⟨by decide, by decide, by decide⟩
  exact (leakInv_trace 0 loadTwiceState hinv ops).2.2

theorem updateFile_eq_of_found (now : Int) (st : ServerState) (req : UpdateReq)
    (proj : Session) (s : String)
    (hid : ¬ req.projectId = "") (hpath : ¬ req.path = "")
    (hc : req.content = some (ContentVal.Str s))
    (hp : getProj st.projects req.projectId = some proj)
    (hnotdir : dirExists st.dirs (resolveUnder proj.path req.path) = false)
    (hparent :
      dirExists st.dirs (resolveUnder proj.path req.path).dropLast = true) :
    updateFile now st req =
      ({ st with fs := fsWrite st.fs (resolveUnder proj.path req.path) s },
       Resp.ok,
       if resolveUnder proj.path req.path ∈ proj.moduleGraph then
         [Event.write (resolveUnder proj.path req.path) s,
          Event.invalidate (resolveUnder proj.path req.path),
          Event.wsSend (resolveUnder proj.path req.path) now]
       else [Event.write (resolveUnder proj.path req.path) s]) := by
  have hcond : ¬ (req.projectId = "" ∨ req.path = ""
      ∨ (some (ContentVal.Str s) : Option ContentVal) = none) := by
    simp [hid, hpath]
  simp only [updateFile, hp, hc]
  rw [if_neg hcond]
  rw [if_neg (by simp [hnotdir])]
  rw [if_neg (by simp [hparent])]
  by_cases hg : resolveUnder proj.path req.path ∈ proj.moduleGraph
  · simp [hg]
  · simp [hg]

theorem updateFile_eq_of_noparent (now : Int) (st : ServerState)
    (req : UpdateReq) (proj : Session) (s : String)
    (hid : ¬ req.projectId = "") (hpath : ¬ req.path = "")
    (hc : req.content = some (ContentVal.Str s))
    (hp : getProj st.projects req.projectId = some proj)
    (hnoparent :
      dirExists st.dirs (resolveUnder proj.path req.path).dropLast = false) :
    updateFile now st req = (st, Resp.serverError, []) := by
  have hcond : ¬ (req.projectId = "" ∨ req.path = ""
      ∨ (some (ContentVal.Str s) : Option ContentVal) = none) := by
    simp [hid, hpath]
  simp only [updateFile, hp, hc]
  rw [if_neg hcond]
  by_cases hdir : dirExists st.dirs (resolveUnder proj.path req.path) = true
  · rw [if_pos hdir]
  · rw [if_neg hdir]
    rw [if_pos (by simp [hnoparent])]

theorem updateFile_eq_of_absent (now : Int) (st : ServerState) (req : UpdateReq)
    (hval : ¬ (req.projectId = "" ∨ req.path = "" ∨ req.content = none))
    (hp : getProj st.projects req.projectId = none) :
    updateFile now st req = (st, Resp.notFound, []) := by
  simp only [updateFile, if_neg hval, hp]

theorem updateFile_eq_of_null (now : Int) (st : ServerState) (req : UpdateReq)
    (proj : Session)
    (hid : ¬ req.projectId = "") (hpath : ¬ req.path = "")
    (hc : req.content = some ContentVal.Null)
    (hp : getProj st.projects req.projectId = some proj) :
    updateFile now st req = (st, Resp.serverError, []) := by
  have hcond : ¬ (req.projectId = "" ∨ req.path = ""
      ∨ (some ContentVal.Null : Option ContentVal) = none) := by
    simp [hid, hpath]
  simp only [updateFile, hp, hc]
  rw [if_neg hcond]

/-- C4 counterexample: the claim promises HTTP 404 for every request whose
`projectId` is unregistered, but field validation runs first: the request
`{projectId: "ghost", path: "", content: "x"}` has an unregistered id yet
is answered with 400, not 404 (no mutation happens either way). -/
theorem update_unknown_id_can_return_400 :
    getProj (initState ["app"]).projects "ghost" = none
    ∧ (updateFile 0 (initState ["app"])
        { projectId := "ghost", path := "", content := some (ContentVal.Str "x") }).2.1
        = Resp.badRequest
    ∧ (Resp.badRequest = Resp.notFound) = False := by
  decide

/-- C4 (amended): an update-file request whose `projectId` is not
registered mutates nothing — the state (registry and every workspace) is
returned unchanged — and fails with 404 when the request passes field
validation, or with 400 when it does not. -/
theorem update_unknown_id_rejected_without_mutation
    (now : Int) (st : ServerState) (req : UpdateReq)
    (habs : getProj st.projects req.projectId = none) :
    (updateFile now st req).1 = st
    ∧ ((updateFile now st req).2.1 = Resp.notFound
        ∨ (updateFile now st req).2.1 = Resp.badRequest)
    ∧ (¬ req.projectId = "" → ¬ req.path = "" → ¬ req.content = none →
        updateFile now st req = (st, Resp.notFound, [])) := by
  by_cases hval : req.projectId = "" ∨ req.path = "" ∨ req.content = none
  · have hres : updateFile now st req = (st, Resp.badRequest, []) := by
      simp only [updateFile, if_pos hval]
    rw [hres]
    exact ⟨rfl, Or.inr rfl, fun h1 h2 h3 => absurd hval (by simp [h1, h2, h3])⟩
  · rw [updateFile_eq_of_absent now st req hval habs]
    exact ⟨rfl, Or.inl rfl, fun _ _ _ => rfl⟩

/-- C4 witness: updating the unregistered id `"ghost"` on a fresh server
returns 404 and leaves the state untouched. -/
theorem update_unknown_id_rejected_witness :
    (updateFile 0 (initState ["app"])
        { projectId := "ghost", path := "x.js",
          content := some (ContentVal.Str "y") }).1 = initState ["app"]
    ∧ ((updateFile 0 (initState ["app"])
        { projectId := "ghost", path := "x.js",
          content := some (ContentVal.Str "y") }).2.1 = Resp.notFound
        ∨ (updateFile 0 (initState ["app"])
            { projectId := "ghost", path := "x.js",
              content := some (ContentVal.Str "y") }).2.1 = Resp.badRequest)
    ∧ (¬ ("ghost" : String) = "" → ¬ ("x.js" : String) = "" →
        ¬ (some (ContentVal.Str "y") : Option ContentVal) = none →
        updateFile 0 (initState ["app"])
          { projectId := "ghost", path := "x.js",
            content := some (ContentVal.Str "y") }
          = (initState ["app"], Resp.notFound, [])) :=
  update_unknown_id_rejected_without_mutation 0 (initState ["app"])
    { projectId := "ghost", path := "x.js", content := some (ContentVal.Str "y") }
    (by decide)

theorem updateFile_eq_of_isdir (now : Int) (st : ServerState)
    (req : UpdateReq) (proj : Session) (s : String)
    (hid : ¬ req.projectId = "") (hpath : ¬ req.path = "")
    (hc : req.content = some (ContentVal.Str s))
    (hp : getProj st.projects req.projectId = some proj)
    (hdir : dirExists st.dirs (resolveUnder proj.path req.path) = true) :
    updateFile now st req = (st, Resp.serverError, []) := by
  have hcond : ¬ (req.projectId = "" ∨ req.path = ""
      ∨ (some (ContentVal.Str s) : Option ContentVal) = none) := by
    simp [hid, hpath]
  simp only [updateFile, hp, hc]
  rw [if_neg hcond]
  rw [if_pos hdir]

/-- C5: on a successful update of a registered project (string content,
resolved path not an existing directory, parent directory present — the
conditions under which `fs.writeFile` succeeds), the file write is the
first effect issued — it is already reflected in the resulting filesystem —
and the module invalidation and live-update notification can only occur
strictly after it, in the tail of the effect trace. -/
theorem update_write_before_invalidate
    (now : Int) (st : ServerState) (req : UpdateReq) (proj : Session) (s : String)
    (hid : ¬ req.projectId = "") (hpath : ¬ req.path = "")
    (hc : req.content = some (ContentVal.Str s))
    (hp : getProj st.projects req.projectId = some proj)
    (hnotdir : dirExists st.dirs (resolveUnder proj.path req.path) = false)
    (hparent :
      dirExists st.dirs (resolveUnder proj.path req.path).dropLast = true) :
    (updateFile now st req).2.1 = Resp.ok
    ∧ ((updateFile now st req).2.2).head? =
        some (Event.write (resolveUnder proj.path req.path) s)
    ∧ fsRead (updateFile now st req).1.fs (resolveUnder proj.path req.path)
        = some s
    ∧ ∀ e ∈ ((updateFile now st req).2.2).tail,
        e = Event.invalidate (resolveUnder proj.path req.path)
        ∨ e = Event.wsSend (resolveUnder proj.path req.path) now := by
  rw [updateFile_eq_of_found now st req proj s hid hpath hc hp hnotdir hparent]
  by_cases hg : resolveUnder proj.path req.path ∈ proj.moduleGraph
  · simp [hg, fsRead_fsWrite_self]
  · simp [hg, fsRead_fsWrite_self]

/-- C5 witness: updating the compiled module `/index.js` of the registered
project `"demo"` succeeds with the write as first effect, followed only by
its invalidation and notification. -/
theorem update_write_before_invalidate_witness :
    (updateFile 7 stDemo
        { projectId := "demo", path := "/index.js",
          content := some (ContentVal.Str "new") }).2.1 = Resp.ok
    ∧ ((updateFile 7 stDemo
        { projectId := "demo", path := "/index.js",
          content := some (ContentVal.Str "new") }).2.2).head? =
        some (Event.write (resolveUnder sessDemo.path "/index.js") "new")
    ∧ fsRead (updateFile 7 stDemo
        { projectId := "demo", path := "/index.js",
          content := some (ContentVal.Str "new") }).1.fs
        (resolveUnder sessDemo.path "/index.js") = some "new"
    ∧ ∀ e ∈ ((updateFile 7 stDemo
        { projectId := "demo", path := "/index.js",
          content := some (ContentVal.Str "new") }).2.2).tail,
        e = Event.invalidate (resolveUnder sessDemo.path "/index.js")
        ∨ e = Event.wsSend (resolveUnder sessDemo.path "/index.js") 7 :=
  update_write_before_invalidate 7 stDemo
    { projectId := "demo", path := "/index.js",
      content := some (ContentVal.Str "new") }
    sessDemo "new" (by decide) (by decide) rfl (by decide) (by decide) (by decide)

/-- C6 counterexample: the claim promises `{success:true}` for every
update whose resolved path has no module-graph node, but the update
handler calls `fs.writeFile` with no `fs.mkdir` before it: on the
registered project `"demo"` (whose disk holds only the workspace
directory) the uncompiled path `newdir/f.js` resolves under a parent
directory that does not exist, so the write fails with ENOENT and the
request is answered 500 with no write and no notification — not
`{success:true}`. -/
theorem update_uncompiled_new_dir_returns_500 :
    getProj stDemo.projects "demo" = some sessDemo
    ∧ (resolveUnder sessDemo.path "newdir/f.js" ∈ sessDemo.moduleGraph) = False
    ∧ dirExists stDemo.dirs (resolveUnder sessDemo.path "newdir/f.js").dropLast
        = false
    ∧ updateFile 7 stDemo
        { projectId := "demo", path := "newdir/f.js",
          content := some (ContentVal.Str "n") }
        = (stDemo, Resp.serverError, [])
    ∧ (Resp.serverError = Resp.ok) = False := by
  decide

/-- C6 (amended): when the resolved path has no node in the engine's
module graph, no invalidation and no notification are ever sent, and
invalidate itself is never the source of an error; whether the request
succeeds is decided by the write alone: if the path's parent directory
exists (and the path is not a directory), the update writes the file and
succeeds with `{success:true}` carrying the write as its only effect,
but if the parent directory does not exist, `fs.writeFile` — issued with
no `mkdir` by this handler — fails and the request is answered 500 with
no write and no notification. -/
theorem update_uncompiled_path_noop
    (now : Int) (st : ServerState) (req : UpdateReq) (proj : Session) (s : String)
    (hid : ¬ req.projectId = "") (hpath : ¬ req.path = "")
    (hc : req.content = some (ContentVal.Str s))
    (hp : getProj st.projects req.projectId = some proj)
    (hng : resolveUnder proj.path req.path ∉ proj.moduleGraph) :
    (dirExists st.dirs (resolveUnder proj.path req.path) = false →
     dirExists st.dirs (resolveUnder proj.path req.path).dropLast = true →
     updateFile now st req =
       ({ st with fs := fsWrite st.fs (resolveUnder proj.path req.path) s },
        Resp.ok, [Event.write (resolveUnder proj.path req.path) s]))
    ∧ (dirExists st.dirs (resolveUnder proj.path req.path).dropLast = false →
       updateFile now st req = (st, Resp.serverError, [])) := by
  constructor
  · intro hnotdir hparent
    rw [updateFile_eq_of_found now st req proj s hid hpath hc hp hnotdir hparent]
    simp [hng]
  · intro hnoparent
    exact updateFile_eq_of_noparent now st req proj s hid hpath hc hp hnoparent

/-- C6 witness: on project `"demo"`, updating the uncompiled `/other.js`
(whose parent, the workspace, exists) succeeds with only the write; while
the uncompiled `newdir/f.js` lacks its parent directory and gets 500 with
no effect. -/
theorem update_uncompiled_path_noop_witness :
    ((dirExists stDemo.dirs (resolveUnder sessDemo.path "/other.js") = false →
      dirExists stDemo.dirs (resolveUnder sessDemo.path "/other.js").dropLast
        = true →
      updateFile 7 stDemo
          { projectId := "demo", path := "/other.js",
            content := some (ContentVal.Str "n") }
        = ({ stDemo with
              fs := fsWrite stDemo.fs (resolveUnder sessDemo.path "/other.js") "n" },
           Resp.ok, [Event.write (resolveUnder sessDemo.path "/other.js") "n"]))
     ∧ (dirExists stDemo.dirs (resolveUnder sessDemo.path "/other.js").dropLast
          = false →
        updateFile 7 stDemo
            { projectId := "demo", path := "/other.js",
              content := some (ContentVal.Str "n") }
          = (stDemo, Resp.serverError, [])))
    ∧ ((dirExists stDemo.dirs (resolveUnder sessDemo.path "newdir/f.js") = false →
        dirExists stDemo.dirs (resolveUnder sessDemo.path "newdir/f.js").dropLast
          = true →
        updateFile 7 stDemo
            { projectId := "demo", path := "newdir/f.js",
              content := some (ContentVal.Str "n") }
          = ({ stDemo with
                fs := fsWrite stDemo.fs
                  (resolveUnder sessDemo.path "newdir/f.js") "n" },
             Resp.ok,
             [Event.write (resolveUnder sessDemo.path "newdir/f.js") "n"]))
       ∧ (dirExists stDemo.dirs
            (resolveUnder sessDemo.path "newdir/f.js").dropLast = false →
          updateFile 7 stDemo
              { projectId := "demo", path := "newdir/f.js",
                content := some (ContentVal.Str "n") }
            = (stDemo, Resp.serverError, []))) :=
  ⟨update_uncompiled_path_noop 7 stDemo
      { projectId := "demo", path := "/other.js",
        content := some (ContentVal.Str "n") }
      sessDemo "n" (by decide) (by decide) rfl (by decide) (by decide),
   update_uncompiled_path_noop 7 stDemo
      { projectId := "demo", path := "newdir/f.js",
        content := some (ContentVal.Str "n") }
      sessDemo "n" (by decide) (by decide) rfl (by decide) (by decide)⟩

/-- C10: update-file answers 400 exactly when `projectId` is falsy (empty),
`path` is falsy (empty), or `content` is strictly `undefined` (absent);
on a registered project with validation passed, JSON `null` content reaches
`fs.writeFile`, throws, and surfaces as a 500 with no write, while string
content (empty included) passes validation and — when the write itself can
succeed, i.e. the resolved path is not a directory and its parent exists —
is answered 200. -/
theorem update_validation_boundary
    (now : Int) (st : ServerState) (req : UpdateReq) :
    ((updateFile now st req).2.1 = Resp.badRequest
      ↔ (req.projectId = "" ∨ req.path = "" ∨ req.content = none))
    ∧ (∀ proj : Session, ¬ req.projectId = "" → ¬ req.path = "" →
        req.content = some ContentVal.Null →
        getProj st.projects req.projectId = some proj →
        updateFile now st req = (st, Resp.serverError, []))
    ∧ (∀ (proj : Session) (s : String), ¬ req.projectId = "" → ¬ req.path = "" →
        req.content = some (ContentVal.Str s) →
        getProj st.projects req.projectId = some proj →
        dirExists st.dirs (resolveUnder proj.path req.path) = false →
        dirExists st.dirs (resolveUnder proj.path req.path).dropLast = true →
        (updateFile now st req).2.1 = Resp.ok) := by
  refine ⟨⟨?_, ?_⟩, ?_, ?_⟩
  · intro hbad
    by_contra hval
    rw [not_or, not_or] at hval
    obtain ⟨hid, hpath, hcnone⟩ := hval
    have hval' : ¬ (req.projectId = "" ∨ req.path = "" ∨ req.content = none) := by
      simp [hid, hpath, hcnone]
    cases hp : getProj st.projects req.projectId with
    | none =>
      rw [updateFile_eq_of_absent now st req hval' hp] at hbad
      simp at hbad
    | some proj =>
      cases hc : req.content with
      | none => exact hcnone hc
      | some c =>
        cases c with
        | Null =>
          rw [updateFile_eq_of_null now st req proj hid hpath hc hp] at hbad
          simp at hbad
        | Str s =>
          by_cases hdir : dirExists st.dirs (resolveUnder proj.path req.path)
              = true
          · rw [updateFile_eq_of_isdir now st req proj s hid hpath hc hp hdir]
              at hbad
            simp at hbad
          · have hdir' : dirExists st.dirs (resolveUnder proj.path req.path)
                = false := by
              simpa using hdir
            by_cases hpar : dirExists st.dirs
                (resolveUnder proj.path req.path).dropLast = true
            · rw [updateFile_eq_of_found now st req proj s hid hpath hc hp
                hdir' hpar] at hbad
              simp at hbad
            · have hpar' : dirExists st.dirs
                  (resolveUnder proj.path req.path).dropLast = false := by
                simpa using hpar
              rw [updateFile_eq_of_noparent now st req proj s hid hpath hc hp
                hpar'] at hbad
              simp at hbad
  · intro hval
    have hres : updateFile now st req = (st, Resp.badRequest, []) := by
      simp only [updateFile, if_pos hval]
    rw [hres]
  · intro proj hid hpath hc hp
    exact updateFile_eq_of_null now st req proj hid hpath hc hp
  · intro proj s hid hpath hc hp hnotdir hparent
    rw [updateFile_eq_of_found now st req proj s hid hpath hc hp hnotdir hparent]

/-- C10 witness: on the registered project `"demo"`, a `null` content
passes validation and surfaces as a 500 with no state change. -/
theorem update_validation_boundary_witness :
    updateFile 3 stDemo
        { projectId := "demo", path := "/index.js", content := some ContentVal.Null }
      = (stDemo, Resp.serverError, []) :=
  (update_validation_boundary 3 stDemo
      { projectId := "demo", path := "/index.js",
        content := some ContentVal.Null }).2.1
    sessDemo (by decide) (by decide) rfl (by decide)

/-- C7: `createdAt` is set by the load that creates the session and is not
mutated by update-file: after any sequence of updates, the registered
session's `createdAt` — the sole input to the Reaper's age computation —
still equals the load time. -/
theorem createdAt_immutable_under_updates
    (t : Int) (st₀ st₁ : ServerState) (req : LoadReq)
    (us : List (Int × UpdateReq))
    (h : loadProject t st₀ req = (st₁, Resp.ok)) :
    (getProj (applyUpdates st₁ us).projects req.projectId).map Session.createdAt
      = some t := by
  rw [applyUpdates_projects]
  unfold loadProject at h
  by_cases hid : req.projectId = ""
  · rw [if_pos hid] at h
    simp at h
  · rw [if_neg hid] at h
    cases hf : req.files with
    | none =>
      rw [hf] at h
      simp at h
    | some files =>
      simp only [hf] at h
      by_cases hmk : st₀.fs.any (fun e =>
          e.1.isPrefixOf (workspaceSegs st₀.dirname req.projectId)) = true
      · rw [if_pos hmk] at h
        simp at h
      · rw [if_neg hmk] at h
        rcases hres : files.foldl
            (matStep (workspaceSegs st₀.dirname req.projectId))
            (workspaceSegs st₀.dirname req.projectId :: st₀.dirs, st₀.fs, true)
          with ⟨dirs2, fs2, ok2⟩
        rw [hres] at h
        cases ok2 with
        | false => simp at h
        | true =>
          simp only [Prod.mk.injEq] at h
          obtain ⟨hst, -⟩ := h
          rw [← hst]
          show (getProj (setProj st₀.projects req.projectId
              { viteHandle := st₀.nextHandle,
                path := workspaceSegs st₀.dirname req.projectId,
                moduleGraph := [], files := files, createdAt := t })
              req.projectId).map Session.createdAt = some t
          rw [getProj_setProj_self]
          rfl

/-- C7 witness: project `"demo"` loaded at time 42 and then updated still
reports `createdAt = 42`. -/
theorem createdAt_immutable_witness :
    (getProj (applyUpdates
        (loadProject 42 (initState ["app"])
          { projectId := "demo",
            files := some [{ path := "a.js", content := "x" }] }).1
        [(99, { projectId := "demo", path := "a.js",
                content := some (ContentVal.Str "y") })]).projects
      "demo").map Session.createdAt = some 42 :=
  createdAt_immutable_under_updates 42 (initState ["app"]) _
    { projectId := "demo", files := some [{ path := "a.js", content := "x" }] }
    [(99, { projectId := "demo", path := "a.js",
            content := some (ContentVal.Str "y") })]
    (by decide)

theorem workspaceSegs_plain (d : Segs) (p : String)
    (h1 : splitPath p = [p]) (h2 : ¬ p = ".") (h3 : ¬ p = "..") :
    workspaceSegs d p = (d.foldl normStep []).reverse ++ ["projects", p] := by
  unfold workspaceSegs normalizeAbs
  rw [h1, List.append_assoc, List.foldl_append]
  have e1 : normStep (d.foldl normStep []) "projects"
      = "projects" :: d.foldl normStep [] := by
    unfold normStep
    rw [if_neg (by decide), if_neg (by decide)]
  have e2 : normStep ("projects" :: d.foldl normStep []) p
      = p :: "projects" :: d.foldl normStep [] := by
    unfold normStep
    rw [if_neg h2, if_neg h3]
  show (List.foldl normStep (d.foldl normStep []) ("projects" :: [p])).reverse = _
  rw [List.foldl_cons, e1, List.foldl_cons, e2, List.foldl_nil]
  simp

/-- C2 (amended): workspace disjointness holds only for well-behaved ids —
ids that are a single path segment (no `/`, hence `splitPath id = [id]`)
other than `.` and `..`.  For two such distinct ids, neither workspace path
equals or contains the other.  (Ids with separators or dot segments can
nest or alias, as the counterexample shows.) -/
theorem plain_distinct_ids_have_disjoint_workspaces
    (d : Segs) (p q : String) (hne : ¬ p = q)
    (hp1 : splitPath p = [p]) (hp2 : ¬ p = ".") (hp3 : ¬ p = "..")
    (hq1 : splitPath q = [q]) (hq2 : ¬ q = ".") (hq3 : ¬ q = "..") :
    ¬ workspaceSegs d p <+: workspaceSegs d q
    ∧ ¬ workspaceSegs d q <+: workspaceSegs d p := by
  rw [workspaceSegs_plain d p hp1 hp2 hp3, workspaceSegs_plain d q hq1 hq2 hq3]
  constructor
  · intro hpre
    have heq := hpre.eq_of_length (by simp)
    have hcancel := List.append_cancel_left heq
    simp at hcancel
    exact hne hcancel
  · intro hpre
    have heq := hpre.eq_of_length (by simp)
    have hcancel := List.append_cancel_left heq
    simp at hcancel
    exact hne hcancel.symm

/-- C2 witness: the plain ids `"alpha"` and `"beta"` have disjoint
workspaces. -/
theorem plain_distinct_ids_witness :
    ¬ workspaceSegs ["app"] "alpha" <+: workspaceSegs ["app"] "beta"
    ∧ ¬ workspaceSegs ["app"] "beta" <+: workspaceSegs ["app"] "alpha" :=
  plain_distinct_ids_have_disjoint_workspaces ["app"] "alpha" "beta"
    (by decide) (by decide) (by decide) (by decide)
    (by decide) (by decide) (by decide)

theorem fsWrite_of_fresh (fs : FS) (p : Segs) (c : String)
    (h : ∀ e ∈ fs, ¬ e.1 = p) : fsWrite fs p c = (p, c) :: fs := by
  unfold fsWrite
  congr 1
  rw [List.filter_eq_self]
  intro a ha
  simpa using h a ha

theorem isPrefixOf_false_iff {l₁ l₂ : Segs} :
    l₁.isPrefixOf l₂ = false ↔ ¬ l₁ <+: l₂ := by
  constructor
  · intro h hpre
    rw [← List.isPrefixOf_iff_prefix] at hpre
    rw [h] at hpre
    exact Bool.false_ne_true hpre
  · intro h
    cases hb : l₁.isPrefixOf l₂ with
    | false => rfl
    | true => exact absurd (List.isPrefixOf_iff_prefix.mp hb) h

theorem isPrefixOf_dropLast_self_false {p : Segs} (h : ¬ p = []) :
    p.isPrefixOf p.dropLast = false := by
  rw [isPrefixOf_false_iff]
  intro hpre
  have hlen := hpre.length_le
  rw [List.length_dropLast] at hlen
  have hpos : 0 < p.length := List.length_pos.mpr h
  omega

theorem materialize_success (ws : Segs) (files : List FileEntry) :
    ∀ (dirs0 : List Segs) (fs0 : FS),
    ((files.map (fun g => resolveUnder ws g.path)).Pairwise
      (fun a b => a.isPrefixOf b = false ∧ b.isPrefixOf a = false)) →
    (∀ g ∈ files, ¬ resolveUnder ws g.path = []) →
    (∀ g ∈ files, ∀ e ∈ fs0,
        e.1.isPrefixOf ((resolveUnder ws g.path).dropLast) = false
        ∧ ¬ e.1 = resolveUnder ws g.path) →
    (∀ g ∈ files, ∀ d ∈ dirs0, (resolveUnder ws g.path).isPrefixOf d = false) →
    ∃ dirs2 : List Segs,
      files.foldl (matStep ws) (dirs0, fs0, true)
        = (dirs2,
           (files.map (fun g => (resolveUnder ws g.path, g.content))).reverse
             ++ fs0,
           true) := by
  induction files with
  | nil =>
    intro dirs0 fs0 _ _ _ _
    exact ⟨dirs0, rfl⟩
  | cons f t ih =>
    intro dirs0 fs0 hpf hne hfs hdirs
    rw [List.map_cons] at hpf
    obtain ⟨hpf1, hpf2⟩ := List.pairwise_cons.mp hpf
    have hnef := hne f (List.mem_cons_self f t)
    have hcond1 : fs0.any (fun e =>
        e.1.isPrefixOf ((resolveUnder ws f.path).dropLast)) = false := by
      rw [List.any_eq_false]
      intro e he
      simp [(hfs f (List.mem_cons_self f t) e he).1]
    have hisE : (resolveUnder ws f.path).isEmpty = false := by
      cases hrr : resolveUnder ws f.path with
      | nil => exact absurd hrr hnef
      | cons a l => rfl
    have hcond2 : dirExists ((resolveUnder ws f.path).dropLast :: dirs0)
        (resolveUnder ws f.path) = false := by
      have hanyF : ((resolveUnder ws f.path).dropLast :: dirs0).any
          (fun x => (resolveUnder ws f.path).isPrefixOf x) = false := by
        rw [List.any_eq_false]
        intro x hx
        rcases List.mem_cons.mp hx with hx1 | hx2
        · rw [hx1]
          simp [isPrefixOf_dropLast_self_false hnef]
        · simp [hdirs f (List.mem_cons_self f t) x hx2]
      unfold dirExists
      rw [hisE, hanyF]
      rfl
    have hstep : matStep ws (dirs0, fs0, true) f
        = ((resolveUnder ws f.path).dropLast :: dirs0,
           (resolveUnder ws f.path, f.content) :: fs0, true) := by
      unfold matStep
      dsimp only
      rw [if_neg (by simp [hcond1]), if_neg (by simp [hcond2])]
      rw [fsWrite_of_fresh fs0 _ _
        (fun e he => (hfs f (List.mem_cons_self f t) e he).2)]
    rw [List.foldl_cons, hstep]
    have hrelOf : ∀ g ∈ t,
        (resolveUnder ws f.path).isPrefixOf (resolveUnder ws g.path) = false
        ∧ (resolveUnder ws g.path).isPrefixOf (resolveUnder ws f.path)
          = false :=
      fun g hg => hpf1 (resolveUnder ws g.path) (List.mem_map.mpr ⟨g, hg, rfl⟩)
    obtain ⟨dirs2, hrec⟩ := ih ((resolveUnder ws f.path).dropLast :: dirs0)
      ((resolveUnder ws f.path, f.content) :: fs0) hpf2
      (fun g hg => hne g (List.mem_cons_of_mem f hg))
      (by
        intro g hg e he
        rcases List.mem_cons.mp he with he1 | he2
        · constructor
          · rw [he1]
            rw [isPrefixOf_false_iff]
            intro hpre
            exact (isPrefixOf_false_iff.mp (hrelOf g hg).1)
              (hpre.trans (List.dropLast_prefix _))
          · rw [he1]
            intro heq
            have heq' : resolveUnder ws f.path = resolveUnder ws g.path := heq
            have hself := (hrelOf g hg).1
            rw [heq'] at hself
            rw [List.isPrefixOf_iff_prefix.mpr (List.prefix_refl _)] at hself
            exact absurd hself (by decide)
        · exact hfs g (List.mem_cons_of_mem f hg) e he2)
      (by
        intro g hg x hx
        rcases List.mem_cons.mp hx with hx1 | hx2
        · rw [hx1, isPrefixOf_false_iff]
          intro hpre
          exact (isPrefixOf_false_iff.mp (hrelOf g hg).2)
            (hpre.trans (List.dropLast_prefix _))
        · exact hdirs g (List.mem_cons_of_mem f hg) x hx2)
    refine ⟨dirs2, ?_⟩
    rw [hrec]
    simp [List.append_assoc]

theorem find?_of_nodup_keys (p : Segs) (c : String) :
    ∀ l : List (Segs × String),
    (l.map Prod.fst).Nodup → (p, c) ∈ l →
    l.find? (fun e => e.1 = p) = some (p, c) := by
  intro l
  induction l with
  | nil => intro _ hm; simp at hm
  | cons e t ih =>
    intro hnd hm
    rw [List.map_cons] at hnd
    rcases List.mem_cons.mp hm with he | ht
    · subst he
      simp
    · have hp : p ∈ t.map Prod.fst := List.mem_map.mpr ⟨(p, c), ht, rfl⟩
      have hne : ¬ e.1 = p := fun hbad => (List.nodup_cons.mp hnd).1 (hbad ▸ hp)
      have hskip : List.find? (fun x : Segs × String => decide (x.1 = p)) (e :: t)
          = List.find? (fun x : Segs × String => decide (x.1 = p)) t := by
        simp [hne]
      rw [hskip]
      exact ih (List.nodup_cons.mp hnd).2 ht

/-- C8 counterexample: a well-formed two-entry manifest whose entries share
the path `"a"` loads successfully but materializes only one file (the last
write wins), not two as the claim requires; and a manifest with the
distinct but nested paths `"a"` and `"a/b"` fails mid-materialization —
`fs.mkdir` of the second entry's parent hits the file `"a"` — so the load
answers 500 with one file on disk, again not `N = 2` matching files. -/
theorem load_duplicate_paths_drop_files :
    (loadProject 0 (initState ["app"])
      { projectId := "P",
        files := some [{ path := "a", content := "1" },
                       { path := "a", content := "2" }] }).2 = Resp.ok
    ∧ countInWorkspace (workspaceSegs ["app"] "P")
        (loadProject 0 (initState ["app"])
          { projectId := "P",
            files := some [{ path := "a", content := "1" },
                           { path := "a", content := "2" }] }).1.fs = 1
    ∧ ((1 : Nat) = 2) = False
    ∧ (loadProject 0 (initState ["app"])
        { projectId := "P",
          files := some [{ path := "a", content := "1" },
                         { path := "a/b", content := "2" }] }).2
        = Resp.serverError
    ∧ countInWorkspace (workspaceSegs ["app"] "P")
        (loadProject 0 (initState ["app"])
          { projectId := "P",
            files := some [{ path := "a", content := "1" },
                           { path := "a/b", content := "2" }] }).1.fs = 1 := by
  decide

/-- C8 (amended): for a valid id and a well-formed manifest of `N` entries
whose resolved paths lie strictly inside the workspace and are pairwise
non-nested (no resolved path equal to or a prefix of another — ruling out
both duplicate writes and file/directory collisions in the per-entry
`mkdir`/`writeFile` sequence), loading on a clean server (no file at,
above, or inside the workspace and no directory at or below it) succeeds
and yields exactly `N` files in the workspace, each holding the content
supplied for its path. -/
theorem load_roundtrip_distinct_paths
    (t : Int) (st : ServerState) (req : LoadReq) (files : List FileEntry)
    (hf : req.files = some files) (hid : ¬ req.projectId = "")
    (hmkOk : st.fs.any (fun e =>
        e.1.isPrefixOf (workspaceSegs st.dirname req.projectId)) = false)
    (hfresh : ∀ e ∈ st.fs,
        (workspaceSegs st.dirname req.projectId).isPrefixOf e.1 = false)
    (hnodir : ∀ d ∈ st.dirs,
        (workspaceSegs st.dirname req.projectId).isPrefixOf d = false)
    (hin : ∀ g ∈ files,
        (workspaceSegs st.dirname req.projectId).isPrefixOf
          (resolveUnder (workspaceSegs st.dirname req.projectId) g.path) = true
        ∧ ¬ resolveUnder (workspaceSegs st.dirname req.projectId) g.path
            = workspaceSegs st.dirname req.projectId)
    (hpf : (files.map (fun g =>
        resolveUnder (workspaceSegs st.dirname req.projectId) g.path)).Pairwise
        (fun a b => a.isPrefixOf b = false ∧ b.isPrefixOf a = false)) :
    (loadProject t st req).2 = Resp.ok
    ∧ countInWorkspace (workspaceSegs st.dirname req.projectId)
        (loadProject t st req).1.fs = files.length
    ∧ ∀ g ∈ files,
        fsRead (loadProject t st req).1.fs
            (resolveUnder (workspaceSegs st.dirname req.projectId) g.path)
          = some g.content := by
  have hwsub : ∀ g ∈ files,
      workspaceSegs st.dirname req.projectId
        <+: resolveUnder (workspaceSegs st.dirname req.projectId) g.path :=
    fun g hg => List.isPrefixOf_iff_prefix.mp (hin g hg).1
  have hne : ∀ g ∈ files,
      ¬ resolveUnder (workspaceSegs st.dirname req.projectId) g.path = [] := by
    intro g hg hnil
    have hp := hwsub g hg
    rw [hnil] at hp
    have hws := List.prefix_nil.mp hp
    exact (hin g hg).2 (by rw [hnil, hws])
  have hnd : (files.map (fun g =>
      resolveUnder (workspaceSegs st.dirname req.projectId) g.path)).Nodup := by
    refine hpf.imp ?_
    intro a b hab heq
    obtain ⟨h1, -⟩ := hab
    rw [heq] at h1
    rw [List.isPrefixOf_iff_prefix.mpr (List.prefix_refl _)] at h1
    exact absurd h1 (by decide)
  have hfs0 : ∀ g ∈ files, ∀ e ∈ st.fs,
      e.1.isPrefixOf
        ((resolveUnder (workspaceSegs st.dirname req.projectId) g.path).dropLast)
        = false
      ∧ ¬ e.1 = resolveUnder (workspaceSegs st.dirname req.projectId) g.path := by
    intro g hg e he
    constructor
    · rw [isPrefixOf_false_iff]
      intro hpre
      have hpre2 : e.1
          <+: resolveUnder (workspaceSegs st.dirname req.projectId) g.path :=
        hpre.trans (List.dropLast_prefix _)
      rcases List.prefix_or_prefix_of_prefix hpre2 (hwsub g hg) with hc | hc
      · exact (List.any_eq_false.mp hmkOk e he)
          (List.isPrefixOf_iff_prefix.mpr hc)
      · exact (isPrefixOf_false_iff.mp (hfresh e he)) hc
    · intro heq
      have h2 := (hin g hg).1
      rw [← heq] at h2
      rw [hfresh e he] at h2
      exact absurd h2 (by decide)
  have hdirs0 : ∀ g ∈ files,
      ∀ d ∈ (workspaceSegs st.dirname req.projectId :: st.dirs),
      (resolveUnder (workspaceSegs st.dirname req.projectId) g.path).isPrefixOf d
        = false := by
    intro g hg d hd
    rcases List.mem_cons.mp hd with hd1 | hd2
    · rw [hd1, isPrefixOf_false_iff]
      intro hpre
      have hlen1 := hpre.length_le
      have hlen2 := (hwsub g hg).length_le
      have heq := (hwsub g hg).eq_of_length (Nat.le_antisymm hlen2 hlen1)
      exact (hin g hg).2 heq.symm
    · rw [isPrefixOf_false_iff]
      intro hpre
      exact (isPrefixOf_false_iff.mp (hnodir d hd2))
        ((hwsub g hg).trans hpre)
  obtain ⟨dirs2, hmat⟩ := materialize_success
    (workspaceSegs st.dirname req.projectId) files
    (workspaceSegs st.dirname req.projectId :: st.dirs) st.fs hpf hne hfs0 hdirs0
  have hmk' : ¬ st.fs.any (fun e =>
      e.1.isPrefixOf (workspaceSegs st.dirname req.projectId)) = true := by
    simp [hmkOk]
  have hload : loadProject t st req =
      ({ st with
          dirs := dirs2,
          fs := (files.map (fun g =>
              (resolveUnder (workspaceSegs st.dirname req.projectId) g.path,
               g.content))).reverse ++ st.fs,
          projects := setProj st.projects req.projectId
            { viteHandle := st.nextHandle,
              path := workspaceSegs st.dirname req.projectId,
              moduleGraph := [], files := files, createdAt := t },
          nextHandle := st.nextHandle + 1 }, Resp.ok) := by
    simp only [loadProject, if_neg hid, hf, if_neg hmk', hmat]
  refine ⟨by rw [hload], ?_, ?_⟩
  · rw [hload]
    dsimp only
    unfold countInWorkspace
    rw [List.filter_append]
    have hall : (files.map (fun g =>
          (resolveUnder (workspaceSegs st.dirname req.projectId) g.path,
           g.content))).reverse.filter
          (fun e => (workspaceSegs st.dirname req.projectId).isPrefixOf e.1)
        = (files.map (fun g =>
            (resolveUnder (workspaceSegs st.dirname req.projectId) g.path,
             g.content))).reverse := by
      rw [List.filter_eq_self]
      intro a ha
      rw [List.mem_reverse] at ha
      obtain ⟨g, hg, hag⟩ := List.mem_map.mp ha
      rw [← hag]
      exact (hin g hg).1
    have hnone : st.fs.filter
        (fun e => (workspaceSegs st.dirname req.projectId).isPrefixOf e.1)
        = [] := by
      rw [List.filter_eq_nil_iff]
      intro a ha
      simp [hfresh a ha]
    rw [hall, hnone]
    simp
  · intro g hg
    rw [hload]
    dsimp only
    unfold fsRead
    rw [List.find?_append]
    have hkeys : (((files.map (fun x =>
          (resolveUnder (workspaceSegs st.dirname req.projectId) x.path,
           x.content))).reverse).map Prod.fst)
        = (files.map (fun x =>
            resolveUnder (workspaceSegs st.dirname req.projectId) x.path)).reverse := by
      rw [List.map_reverse, List.map_map]
      rfl
    have hfind := find?_of_nodup_keys
      (resolveUnder (workspaceSegs st.dirname req.projectId) g.path) g.content
      ((files.map (fun x =>
        (resolveUnder (workspaceSegs st.dirname req.projectId) x.path,
         x.content))).reverse)
      (by rw [hkeys]; exact List.nodup_reverse.mpr hnd)
      (List.mem_reverse.mpr (List.mem_map.mpr ⟨g, hg, rfl⟩))
    rw [hfind]
    rfl

/-- C8 witness: loading two entries with distinct, non-nested in-workspace
paths on a clean server yields exactly two files with the supplied
contents. -/
theorem load_roundtrip_witness :
    (loadProject 0 (initState ["app"])
      { projectId := "P",
        files := some [{ path := "a", content := "1" },
                       { path := "b/c", content := "2" }] }).2 = Resp.ok
    ∧ countInWorkspace (workspaceSegs ["app"] "P")
        (loadProject 0 (initState ["app"])
          { projectId := "P",
            files := some [{ path := "a", content := "1" },
                           { path := "b/c", content := "2" }] }).1.fs = 2
    ∧ ∀ g ∈ [({ path := "a", content := "1" } : FileEntry),
             { path := "b/c", content := "2" }],
        fsRead (loadProject 0 (initState ["app"])
            { projectId := "P",
              files := some [{ path := "a", content := "1" },
                             { path := "b/c", content := "2" }] }).1.fs
            (resolveUnder (workspaceSegs ["app"] "P") g.path)
          = some g.content :=
  load_roundtrip_distinct_paths 0 (initState ["app"])
    { projectId := "P",
      files := some [{ path := "a", content := "1" },
                     { path := "b/c", content := "2" }] }
    [{ path := "a", content := "1" }, { path := "b/c", content := "2" }]
    rfl (by decide) (by decide) (by decide) (by decide) (by decide) (by decide)

theorem mem_of_getProj {m : List (String × Session)} {id : String} {s : Session}
    (h : getProj m id = some s) : (id, s) ∈ m := by
  unfold getProj at h
  cases hf : m.find? (fun e => e.1 = id) with
  | none =>
    rw [hf] at h
    simp at h
  | some e =>
    rw [hf] at h
    simp at h
    have hmem := List.mem_of_find?_eq_some hf
    have hpred := List.find?_some hf
    obtain ⟨a, b⟩ := e
    simp at hpred h
    rw [← hpred, ← h]
    exact hmem

theorem getProj_of_mem_nodup {id : String} {s : Session} :
    ∀ m : List (String × Session),
    (m.map Prod.fst).Nodup → (id, s) ∈ m → getProj m id = some s := by
  intro m
  induction m with
  | nil =>
    intro _ hm
    simp at hm
  | cons e t ih =>
    intro hnd hm
    rw [List.map_cons] at hnd
    rcases List.mem_cons.mp hm with he | ht
    · rw [getProj_cons, ← he]
      simp
    · have hp : id ∈ t.map Prod.fst := List.mem_map.mpr ⟨(id, s), ht, rfl⟩
      have hne : ¬ e.1 = id := fun hbad => (List.nodup_cons.mp hnd).1 (hbad ▸ hp)
      rw [getProj_cons, if_neg hne]
      exact ih (List.nodup_cons.mp hnd).2 ht

theorem key_unique {id : String} {s : Session} :
    ∀ m : List (String × Session),
    (m.map Prod.fst).Nodup → (id, s) ∈ m →
    ∀ e ∈ m, e.1 = id → e = (id, s) := by
  intro m
  induction m with
  | nil =>
    intro _ hm
    simp at hm
  | cons a t ih =>
    intro hnd hm e he hk
    rw [List.map_cons] at hnd
    rcases List.mem_cons.mp he with he1 | he2
    · rcases List.mem_cons.mp hm with ha | ht
      · rw [he1, ← ha]
      · exfalso
        have hidt : id ∈ t.map Prod.fst := List.mem_map.mpr ⟨(id, s), ht, rfl⟩
        have ha1 : a.1 = id := by
          rw [← he1]
          exact hk
        exact (List.nodup_cons.mp hnd).1 (ha1 ▸ hidt)
    · rcases List.mem_cons.mp hm with ha | ht
      · exfalso
        have hidt : id ∈ t.map Prod.fst := List.mem_map.mpr ⟨e, he2, hk⟩
        have ha1 : a.1 = id := by
          rw [← ha]
        exact (List.nodup_cons.mp hnd).1 (ha1 ▸ hidt)
      · exact ih (List.nodup_cons.mp hnd).2 ht e he2 hk

theorem count_eq_one_of_mem_nodup {α : Type} [BEq α] [LawfulBEq α]
    {l : List α} {a : α} (hn : l.Nodup) (hm : a ∈ l) : l.count a = 1 := by
  induction l with
  | nil => simp at hm
  | cons b t ih =>
    rcases List.mem_cons.mp hm with h1 | h2
    · subst h1
      have hnott : a ∉ t := (List.nodup_cons.mp hn).1
      simp [List.count_cons, List.count_eq_zero.mpr hnott]
    · have hne : ¬ b = a := by
        intro hbad
        exact (List.nodup_cons.mp hn).1 (hbad ▸ h2)
      simp [List.count_cons, hne, ih (List.nodup_cons.mp hn).2 h2]

theorem count_close_evictionEvents (l : List (String × Session)) (h : Nat) :
    (evictionEvents l).count (Event.close h)
      = (l.map (fun e => e.2.viteHandle)).count h := by
  induction l with
  | nil => rfl
  | cons e t ih =>
    show (Event.close e.2.viteHandle :: Event.rmWorkspace e.2.path
        :: evictionEvents t).count (Event.close h)
      = (e.2.viteHandle :: t.map (fun x => x.2.viteHandle)).count h
    simp [List.count_cons, ih]

theorem count_rm_evictionEvents (l : List (String × Session)) (p : Segs) :
    (evictionEvents l).count (Event.rmWorkspace p)
      = (l.map (fun e => e.2.path)).count p := by
  induction l with
  | nil => rfl
  | cons e t ih =>
    show (Event.close e.2.viteHandle :: Event.rmWorkspace e.2.path
        :: evictionEvents t).count (Event.rmWorkspace p)
      = (e.2.path :: t.map (fun x => x.2.path)).count p
    simp [List.count_cons, ih]

/-- C9: on a reaper tick at time `now`, a registered session whose age
`now - createdAt` exceeds the retention threshold is removed from the
registry, its engine handle closed exactly once, and exactly one
best-effort workspace-deletion request is issued for it (never retried
within the tick, and the tick itself touches no file); a session whose age
does not exceed the threshold stays registered, unchanged. -/
theorem reaper_tick_evicts_exactly_old
    (now : Int) (st : ServerState) (id : String) (s : Session)
    (hkeys : (st.projects.map Prod.fst).Nodup)
    (hhandles : (st.projects.map (fun e => e.2.viteHandle)).Nodup)
    (hpaths : (st.projects.map (fun e => e.2.path)).Nodup)
    (hs : getProj st.projects id = some s) :
    (if maxAge < now - s.createdAt then
        getProj (reaperTick now st).1.projects id = none
        ∧ ((reaperTick now st).2).count (Event.close s.viteHandle) = 1
        ∧ ((reaperTick now st).2).count (Event.rmWorkspace s.path) = 1
      else
        getProj (reaperTick now st).1.projects id = some s)
    ∧ (reaperTick now st).1.fs = st.fs := by
  have hmem := mem_of_getProj hs
  refine ⟨?_, rfl⟩
  by_cases hold : maxAge < now - s.createdAt
  · rw [if_pos hold]
    have hevict : (id, s) ∈ st.projects.filter
        (fun e => maxAge < now - e.2.createdAt) :=
      List.mem_filter.mpr ⟨hmem, by simpa using hold⟩
    refine ⟨?_, ?_, ?_⟩
    · show getProj (st.projects.filter
          (fun e => ¬ maxAge < now - e.2.createdAt)) id = none
      unfold getProj
      rw [List.find?_eq_none.mpr ?_]
      · rfl
      · intro x hx
        obtain ⟨hxm, hxc⟩ := List.mem_filter.mp hx
        intro hxid
        simp at hxid hxc
        have hxs : x = (id, s) := key_unique st.projects hkeys hmem x hxm hxid
        rw [hxs] at hxc
        exact absurd hold (by simpa using hxc)
    · show (evictionEvents (st.projects.filter
          (fun e => maxAge < now - e.2.createdAt))).count
          (Event.close s.viteHandle) = 1
      rw [count_close_evictionEvents]
      refine count_eq_one_of_mem_nodup ?_ ?_
      · exact hhandles.sublist
          (List.Sublist.map _ (List.filter_sublist st.projects))
      · exact List.mem_map.mpr ⟨(id, s), hevict, rfl⟩
    · show (evictionEvents (st.projects.filter
          (fun e => maxAge < now - e.2.createdAt))).count
          (Event.rmWorkspace s.path) = 1
      rw [count_rm_evictionEvents]
      refine count_eq_one_of_mem_nodup ?_ ?_
      · exact hpaths.sublist
          (List.Sublist.map _ (List.filter_sublist st.projects))
      · exact List.mem_map.mpr ⟨(id, s), hevict, rfl⟩
  · rw [if_neg hold]
    show getProj (st.projects.filter
        (fun e => ¬ maxAge < now - e.2.createdAt)) id = some s
    refine getProj_of_mem_nodup _ ?_ ?_
    · exact hkeys.sublist (List.Sublist.map _ (List.filter_sublist st.projects))
    · exact List.mem_filter.mpr ⟨hmem, by simpa using hold⟩

/-- C9 witness: at time 2000000 the stale session `"demo"` (created at
1000) is evicted — unregistered, its handle closed once, one deletion
request — and the tick leaves the disk untouched. -/
theorem reaper_tick_witness :
    (if maxAge < 2000000 - sessDemo.createdAt then
        getProj (reaperTick 2000000 stDemo).1.projects "demo" = none
        ∧ ((reaperTick 2000000 stDemo).2).count
            (Event.close sessDemo.viteHandle) = 1
        ∧ ((reaperTick 2000000 stDemo).2).count
            (Event.rmWorkspace sessDemo.path) = 1
      else
        getProj (reaperTick 2000000 stDemo).1.projects "demo" = some sessDemo)
    ∧ (reaperTick 2000000 stDemo).1.fs = stDemo.fs :=
  reaper_tick_evicts_exactly_old 2000000 stDemo "demo" sessDemo
    (by decide) (by decide) (by decide) (by decide)

end PreviewServer
